import Mathlib

/-!
# Shallow embedding of the ConsciousLlmAi-HybridCore pipeline

This file embeds the TypeScript sources of the repository
(`SparseTensorRing`, `TernaryVPU`, `CognitiveLayer`, `ResonanceNetwork`,
`NeuralModeController`, `HybridCore`) as Lean definitions and proves the
spec's testable properties about them.

Modelling conventions:
* JavaScript numbers (IEEE doubles / Float32Array entries) are modelled as
  exact rationals `ℚ`.  Every comparison the claims depend on is either
  exact in binary floating point as well (0, 1, 1/2) or is a threshold
  comparison whose boundary behaviour the spec states in decimal.
* `Math.cos((i*j*π)/ringDimension)` is a transcendental primitive with no
  computable exact model; the definitions take an abstract coefficient
  function `cosPi : ℚ → ℚ`, applied to the rational multiplier `i*j/ringDim`
  (interpreted as `x ↦ cos (π·x)`).  All theorems hold for every such
  function, so nothing about the real cosine is assumed.
* JavaScript `Number.prototype.toString` is likewise abstracted as a
  function `numToStr : ℚ → List Char`; where a claim depends on its output
  (C10) the theorem carries the hypothesis that the rendered text of a
  number uses only the characters `0123456789.+-e`, which is exactly the
  alphabet ECMA-262 prescribes for finite numbers.
* Strings are `List Char`; `str.charCodeAt(i)` is `(str.get i).toNat`.
* `undefined` results (a JS function falling off an array) are `Option`.
* Write-only reporting state (the compressor's `sparsityMask`, the
  orchestrator's wall-clock `processingHistory`) is not carried: no claim
  and no algorithm reads it.
-/

/-- `Math.round x` for a rational `x`: round half away from zero is what JS
does for positive halves; JS rounds halves toward +∞, i.e. `⌊x + 1/2⌋`. -/
def jsRound (x : ℚ) : ℤ := ⌊x + 1/2⌋

/-- `hay.includes(needle)` from JS: `needle` occurs contiguously in `hay`
(the empty needle always occurs). -/
def hasSubstr (hay needle : List Char) : Bool :=
  match hay with
  | [] => needle.isEmpty
  | c :: rest => needle.isPrefixOf (c :: rest) || hasSubstr rest needle

/-- Split a list at the first occurrence of `sep`: returns the part before
and the part after the separator, or `none` when `sep` does not occur. -/
def splitFirst (sep : List Char) : List Char → Option (List Char × List Char)
  | [] => none
  | c :: rest =>
    if sep.isPrefixOf (c :: rest) then some ([], (c :: rest).drop sep.length)
    else
      match splitFirst sep rest with
      | none => none
      | some (pre, post) => some (c :: pre, post)

/-- `rule.split('=>')[0]`: the text before the first `=>`, or the whole rule
when it contains no `=>`. -/
def antecedentOf (rule : List Char) : List Char :=
  match splitFirst ['=', '>'] rule with
  | none => rule
  | some (pre, _) => pre

/-- `rule.split('=>')[1]`: the text between the first and second `=>`
(`undefined`, i.e. `none`, when the rule contains no `=>`). -/
def consequentOf (rule : List Char) : Option (List Char) :=
  match splitFirst ['=', '>'] rule with
  | none => none
  | some (_, post) =>
    match splitFirst ['=', '>'] post with
    | none => some post
    | some (pre, _) => some pre

/-- `array.join(sep)` from JS. -/
def joinSep (sep : List Char) : List (List Char) → List Char
  | [] => []
  | [x] => x
  | x :: y :: rest => x ++ sep ++ joinSep sep (y :: rest)

namespace SparseTensorRing

/-- `encodeToTensor`: a `Float32Array(ringDim)` whose first
`min(input.length, ringDim)` entries are `charCodeAt(i)/255`, the rest 0. -/
def encodeToTensor (ringDim : ℕ) (input : List Char) : List ℚ :=
  ((input.take ringDim).map fun c => (c.toNat : ℚ) / 255) ++
    List.replicate (ringDim - input.length) 0

/-- `tensorDecomposition`: coefficient `i < rank` is
`(Σ_j tensor[j]·cos(i·j·π/ringDim)) / tensor.length`. -/
def tensorDecomposition (cosPi : ℚ → ℚ) (ringDim rank : ℕ) (tensor : List ℚ) :
    List ℚ :=
  (List.range rank).map fun i =>
    ((tensor.enum.map fun p =>
        p.2 * cosPi ((i : ℚ) * (p.1 : ℚ) / (ringDim : ℚ))).sum) /
      (tensor.length : ℚ)

/-- `extractSparse`: interleaved `(index, value)` pairs for coefficients of
absolute value above the sparsity threshold 0.01. -/
def extractSparse (decomposed : List ℚ) : List ℚ :=
  (decomposed.enum.filter fun p => decide ((1 : ℚ)/100 < |p.2|)).flatMap
    fun p => [(p.1 : ℚ), p.2]

/-- `compress = extractSparse ∘ tensorDecomposition ∘ encodeToTensor`. -/
def compress (cosPi : ℚ → ℚ) (ringDim rank : ℕ) (input : List Char) : List ℚ :=
  extractSparse (tensorDecomposition cosPi ringDim rank
    (encodeToTensor ringDim input))

/-- The loop `for (i; i < sparse.length; i += 2)` reads `(sparse[i],
sparse[i+1])` pairs.  `compress` always emits an even number of entries, so
the odd trailing-element case never arises from this pipeline. -/
def toPairs : List ℚ → List (ℚ × ℚ)
  | a :: b :: rest => (a, b) :: toPairs rest
  | _ => []

/-- `reconstructTensor`: position `j` accumulates
`value·cos(index·j·π/ringDim)` over all sparse pairs. -/
def reconstructTensor (cosPi : ℚ → ℚ) (ringDim : ℕ) (sparse : List ℚ) :
    List ℚ :=
  (List.range ringDim).map fun j =>
    ((toPairs sparse).map fun p => p.2 * cosPi (p.1 * (j : ℚ) / (ringDim : ℚ))).sum

/-- `decodeFromTensor`: round `value·255` to an integer code and emit the
character only when the code lies strictly between 0 and 256. -/
def decodeFromTensor (tensor : List ℚ) : List Char :=
  tensor.filterMap fun v =>
    let code := jsRound (v * 255)
    if 0 < code ∧ code < 256 then some (Char.ofNat code.toNat) else none

/-- `decompress = decodeFromTensor ∘ reconstructTensor`. -/
def decompress (cosPi : ℚ → ℚ) (ringDim : ℕ) (sparse : List ℚ) : List Char :=
  decodeFromTensor (reconstructTensor cosPi ringDim sparse)

end SparseTensorRing

namespace TernaryVPU

/-- The TernaryVPU state: `numVPUs` and the `Int8Array` of unit states.
The constructor guarantees `vpuStates.length = numVPUs`. -/
structure State where
  numVPUs : ℕ
  vpuStates : List ℤ
deriving DecidableEq, Repr

/-- `new TernaryVPU(vpuCount)`: all unit states start at 0. -/
def init (vpuCount : ℕ) : State := ⟨vpuCount, List.replicate vpuCount 0⟩

/-- One unit of `quantizeToTernary`: `x > 0.33 → 1`, `x < -0.33 → -1`,
otherwise 0 (the activation threshold is 0.33). -/
def quantizeVal (x : ℚ) : ℤ :=
  if 33/100 < x then 1 else if x < -(33/100) then -1 else 0

/-- `quantizeToTernary` overwrites the first `min(input.length, numVPUs)`
unit states; under the constructor invariant the state list and the unit
count have the same length, so this is a zip-style prefix overwrite. -/
def quantizeList : List ℚ → List ℤ → List ℤ
  | [], s => s
  | x :: xs, s =>
    match s with
    | [] => []
    | _ :: ss => quantizeVal x :: quantizeList xs ss

/-- `process`: quantize, then return the mean of all unit states. -/
def process (input : List ℚ) (vpu : State) : ℚ × State :=
  let states := quantizeList input vpu.vpuStates
  ((states.sum : ℚ) / (vpu.numVPUs : ℚ), ⟨vpu.numVPUs, states⟩)

end TernaryVPU

namespace CognitiveLayer

/-- `deductiveReason`: scan the supplied rules in order; on the first rule
whose antecedent is a substring of the premise, return the consequent
(`none` models the JS `undefined` for a matched rule with no `=>`); if no
rule matches, return the premise. -/
def deductiveReason (premise : List Char) : List (List Char) → Option (List Char)
  | [] => some premise
  | r :: rs =>
    if hasSubstr premise (antecedentOf r) then consequentOf r
    else deductiveReason premise rs

/-- The fixed hypothesis candidates of `abductiveReason`. -/
def hypotheses : List (List Char) :=
  ["pattern_match".toList, "rule_application".toList,
   "knowledge_retrieval".toList]

/-- `scoreHypothesis(obs, hyp) = obs.length * hyp.length`. -/
def scoreHypothesis (obs hyp : List Char) : ℕ := obs.length * hyp.length

/-- `abductiveReason`: running-best scan over the fixed candidates, best
initialized to the first candidate with score 0, strict improvement only. -/
def abductiveReason (obs : List Char) : List Char :=
  (hypotheses.foldl
    (fun best hyp =>
      if best.2 < scoreHypothesis obs hyp then (hyp, scoreHypothesis obs hyp)
      else best)
    (hypotheses.headI, 0)).1

end CognitiveLayer

namespace ResonanceNetwork

/-- The ResonanceNetwork state: the `Float32Array` of VPU states, the (dead)
resonance threshold, and the synchronization history. -/
structure State where
  vpuStates : List ℚ
  resonanceThreshold : ℚ
  syncHistory : List (List ℚ)
deriving DecidableEq, Repr

/-- `new ResonanceNetwork(numVPUs)`: zero states, threshold 0.7, empty
history. -/
def init (numVPUs : ℕ) : State := ⟨List.replicate numVPUs 0, 7/10, []⟩

/-- Per-candidate resonance score: mean of `1/(1+|candidate[j]-state[j]|)`
over the overlap, divided by the candidate's own length. -/
def resonanceScore (states pattern : List ℚ) : ℚ :=
  ((List.zipWith (fun p s => 1 / (1 + |p - s|)) pattern states).sum) /
    (pattern.length : ℚ)

/-- `Math.max(...scores)` (`none` on the empty spread, where JS gives
`-Infinity`). -/
def listMaxQ : List ℚ → Option ℚ
  | [] => none
  | [x] => some x
  | x :: y :: rest =>
    match listMaxQ (y :: rest) with
    | none => some x
    | some m => some (max x m)

/-- `scores.indexOf(x)` (`none` for JS `-1`). -/
def firstIdxOf (x : ℚ) : List ℚ → Option ℕ
  | [] => none
  | y :: rest => if y = x then some 0 else (firstIdxOf x rest).map (· + 1)

/-- `scores.indexOf(Math.max(...scores))`: the first index attaining the
maximum, `none` when the score list is empty. -/
def jsMaxIdx (l : List ℚ) : Option ℕ :=
  match listMaxQ l with
  | none => none
  | some m => firstIdxOf m l

/-- Overwrite the first `min(pattern.length, states.length)` positions of
`states` with `pattern`, keeping the tail. -/
def overwriteFirst : List ℚ → List ℚ → List ℚ
  | [], s => s
  | p :: ps, s =>
    match s with
    | [] => []
    | _ :: ss => p :: overwriteFirst ps ss

/-- `synchronizeVPUs`: score every candidate against the current state,
adopt the first best-scoring candidate as the new state (prefix overwrite),
append the score vector to the history, return the scores. -/
def synchronizeVPUs (patterns : List (List ℚ)) (net : State) :
    List ℚ × State :=
  let scores := patterns.map fun p => resonanceScore net.vpuStates p
  match jsMaxIdx scores with
  | none => (scores, ⟨net.vpuStates, net.resonanceThreshold,
      net.syncHistory ++ [scores]⟩)
  | some b =>
    let best := patterns.getD b []
    (scores, ⟨overwriteFirst best net.vpuStates, net.resonanceThreshold,
      net.syncHistory ++ [scores]⟩)

end ResonanceNetwork

namespace NeuralModeController

/-- The five operating modes. -/
inductive NeuralMode where
  | pure_sllm | conscious | temporal | hybrid | spiking
deriving DecidableEq, Repr

/-- The enum's string value, used by `generateIntrospection`. -/
def NeuralMode.str : NeuralMode → List Char
  | .pure_sllm => "pure_sllm".toList
  | .conscious => "conscious".toList
  | .temporal => "temporal".toList
  | .hybrid => "hybrid".toList
  | .spiking => "spiking".toList

/-- The controller's mutable state: active mode and consciousness level. -/
structure State where
  currentMode : NeuralMode
  consciousnessLevel : ℚ
deriving DecidableEq, Repr

/-- A fresh controller: `pure_sllm` mode, consciousness level 0. -/
def initState : State := ⟨.pure_sllm, 0⟩

/-- `setMode` switches unconditionally. -/
def setMode (st : State) (m : NeuralMode) : State := ⟨m, st.consciousnessLevel⟩

/-- Abstract JS number formatting: `numToStr` models
`Number.prototype.toString` and `toFixed3` models `toFixed(3)`. -/
structure JsFmt where
  numToStr : ℚ → List Char
  toFixed3 : ℚ → List Char

/-- `applyQualiaEncoding`'s result: the per-character embedding
`charCodeAt/255` and the placeholder complex coefficient (0, 0). -/
structure QualiaState where
  content : List ℚ
  qualia : ℚ × ℚ
deriving DecidableEq

/-- The object `process` returns; JS result objects omit fields per mode, so
each field except `output` is optional. -/
structure ProcResult where
  output : List Char
  mode : Option NeuralMode
  consciousnessLevel : Option ℚ
  qualiaState : Option QualiaState
  introspection : Option (List Char)
  memoryState : Option (List (List Char))
  anticipation : Option (List Char)
  fullSynthesis : Option Bool

/-- `applyQualiaEncoding`. -/
def applyQualiaEncoding (input : List Char) : QualiaState :=
  ⟨input.map fun c => (c.toNat : ℚ) / 255, (0, 0)⟩

/-- `applyMetaCognitiveAttention`: the template
`content (introspection: gate)` where the array stringifies as its elements
joined by commas and the gate is the fixed 0.5. -/
def applyMetaCognitiveAttention (fmt : JsFmt) (encoded : QualiaState) :
    List Char :=
  joinSep [','] (encoded.content.map fmt.numToStr) ++
    " (introspection: ".toList ++ fmt.numToStr (1/2) ++ ")".toList

/-- `updateConsciousnessLevel`: add the fixed step 0.01, capped at 1.0. -/
def updateConsciousnessLevel (level : ℚ) : ℚ := min 1 (level + 1/100)

/-- `generateIntrospection` (reads the already-updated level). -/
def generateIntrospection (fmt : JsFmt) (mode : NeuralMode) (level : ℚ) :
    List Char :=
  "I am processing in ".toList ++ mode.str ++
    " mode with consciousness level ".toList ++ fmt.toFixed3 level

/-- `processConscious`: returns the conscious-mode result fields and the
updated consciousness level. -/
def processConscious (fmt : JsFmt) (mode : NeuralMode) (input : List Char)
    (level : ℚ) : (List Char × QualiaState × List Char) × ℚ :=
  let qualiaEncoded := applyQualiaEncoding input
  let attentionOutput := applyMetaCognitiveAttention fmt qualiaEncoded
  let level1 := updateConsciousnessLevel level
  ((attentionOutput, qualiaEncoded, generateIntrospection fmt mode level1),
    level1)

/-- `recallMemory`: `memory.join(' ')`. -/
def recallMemory (memory : List (List Char)) : List Char := joinSep [' '] memory

/-- `consolidateMemory`: `` `${recalled} → ${current}` ``. -/
def consolidateMemory (current recalled : List Char) : List Char :=
  recalled ++ " → ".toList ++ current

/-- `generateAnticipation`: the fixed label plus `output.slice(-10)`. -/
def generateAnticipation (output : List Char) : List Char :=
  "anticipated: ".toList ++ output.drop (output.length - 10)

/-- `processTemporal`: output `recalled → input`, memory with the *output*
appended, and the anticipation string. -/
def processTemporal (input : List Char) (memoryState : List (List Char)) :
    List Char × List (List Char) × List Char :=
  let output := consolidateMemory input (recallMemory memoryState)
  (output, memoryState ++ [output], generateAnticipation output)

/-- `convertToSpikes`: code point above 127 → +1, else -1. -/
def convertToSpikes (input : List Char) : List ℤ :=
  input.map fun c => if 127 < c.toNat then 1 else -1

/-- `processSpikes`: identity on the ±1 alphabet, 0 otherwise. -/
def processSpikes (spikes : List ℤ) : List ℤ :=
  spikes.map fun s => if s = 1 then 1 else if s = -1 then -1 else 0

/-- `spikesToOutput`: +1 → '1', -1 → '0', anything else → 'x'. -/
def spikesToOutput (spikes : List ℤ) : List Char :=
  spikes.map fun s => if s = 1 then '1' else if s = -1 then '0' else 'x'

/-- `process`: dispatch on the active mode.  The `context` argument models
`context?.memoryState` (absent context = `none`).  Returns the result object
and the controller state after the call. -/
def process (fmt : JsFmt) (st : State) (input : List Char)
    (context : Option (List (List Char))) : ProcResult × State :=
  match st.currentMode with
  | .pure_sllm =>
    (⟨input, some st.currentMode, some st.consciousnessLevel,
      none, none, none, none, none⟩, st)
  | .conscious =>
    let ((out, q, intro), level1) :=
      processConscious fmt st.currentMode input st.consciousnessLevel
    (⟨out, none, some level1, some q, some intro, none, none, none⟩,
      ⟨st.currentMode, level1⟩)
  | .temporal =>
    let (out, mem, ant) := processTemporal input (context.getD [])
    (⟨out, none, none, none, none, some mem, some ant, none⟩, st)
  | .hybrid =>
    let ((cOut, q, intro), level1) :=
      processConscious fmt st.currentMode input st.consciousnessLevel
    let (tOut, mem, ant) := processTemporal cOut (context.getD [])
    (⟨tOut, none, some level1, some q, some intro, some mem, some ant,
      some true⟩, ⟨st.currentMode, level1⟩)
  | .spiking =>
    (⟨spikesToOutput (processSpikes (convertToSpikes input)),
      some st.currentMode, some st.consciousnessLevel,
      none, none, none, none, none⟩, st)

end NeuralModeController

namespace HybridCore

/-- The orchestrator's algorithm-relevant state: its quantizer and
synchronizer instances (the tensor ring's mask and the latency history are
reporting-only). -/
structure State where
  ternaryVPU : TernaryVPU.State
  resonance : ResonanceNetwork.State

/-- `new HybridCore()`: `SparseTensorRing(32, 4)`, `TernaryVPU(52)`,
`ResonanceNetwork(52)`. -/
def init : State := ⟨TernaryVPU.init 52, ResonanceNetwork.init 52⟩

/-- The hard-coded rule of stage 3. -/
def theRule : List Char := "input=>processed".toList

/-- `HybridCore.process`: compress (ring 32, rank 4) → quantize →
deductively reason over the stringified scalar with the single hard-coded
rule → synchronize `[[vpuOutput]]` (result discarded) → return the
reasoning. -/
def process (cosPi : ℚ → ℚ) (numToStr : ℚ → List Char) (core : State)
    (input : List Char) : Option (List Char) × State :=
  let compressed := SparseTensorRing.compress cosPi 32 4 input
  let vpuRes := TernaryVPU.process compressed core.ternaryVPU
  let reasoning := CognitiveLayer.deductiveReason (numToStr vpuRes.1) [theRule]
  let syncRes := ResonanceNetwork.synchronizeVPUs [[vpuRes.1]] core.resonance
  (reasoning, ⟨vpuRes.2, syncRes.2⟩)

end HybridCore

/-- A concrete formatting instance (used to instantiate theorems whose
statements quantify over the abstract JS number formatting). -/
def fmt0 : NeuralModeController.JsFmt := ⟨fun _ => ['0'], fun _ => ['0']⟩

/-- A character code in the valid emitted range 1..255. -/
def validCode (c : Char) : Bool := decide (1 ≤ c.toNat ∧ c.toNat ≤ 255)

/-- The characters ECMA-262 number-to-string produces for finite values. -/
def jsNumCharset : List Char := "0123456789.+-e".toList

/-! ## Verified properties -/

/-- C4: for every value written to a ternary unit the quantizer yields +1
above 0.33, -1 below -0.33, and 0 in the closed dead zone, in particular at
the boundaries ±0.33 themselves. -/
theorem quantizeVal_threshold_C4 (x : ℚ) :
    (33/100 < x → TernaryVPU.quantizeVal x = 1) ∧
    (x < -(33/100) → TernaryVPU.quantizeVal x = -1) ∧
    (-(33/100) ≤ x → x ≤ 33/100 → TernaryVPU.quantizeVal x = 0) ∧
    TernaryVPU.quantizeVal (33/100) = 0 ∧
    TernaryVPU.quantizeVal (-(33/100)) = 0 := by
  refine ⟨fun h => ?_, fun h => ?_, fun h1 h2 => ?_, ?_, ?_⟩
  · rw [TernaryVPU.quantizeVal, if_pos h]
  · rw [TernaryVPU.quantizeVal, if_neg (by linarith), if_pos h]
  · rw [TernaryVPU.quantizeVal, if_neg (by linarith), if_neg (by linarith)]
  · norm_num [TernaryVPU.quantizeVal]
  · norm_num [TernaryVPU.quantizeVal]

/-- Witness for C4 at the concrete input 1. -/
theorem quantizeVal_threshold_C4_witness : TernaryVPU.quantizeVal 1 = 1 :=
  (quantizeVal_threshold_C4 1).1 (by norm_num)

/-- Quantization is a prefix overwrite: positions at or beyond the input
length keep their previous state. -/
theorem quantizeList_drop (input : List ℚ) (s : List ℤ) :
    (TernaryVPU.quantizeList input s).drop input.length =
      s.drop input.length := by
  induction input generalizing s with
  | nil => simp [TernaryVPU.quantizeList]
  | cons x xs ih =>
    cases s with
    | nil => simp [TernaryVPU.quantizeList]
    | cons y ys => simpa [TernaryVPU.quantizeList] using ih ys

/-- C5: unit states at or beyond the input length are unchanged by
`process`; an empty input changes no state and returns the mean of the
pre-existing states, which is 0 on the first call after construction. -/
theorem vpu_process_frame_C5 (input : List ℚ) (vpu : TernaryVPU.State)
    (n : ℕ) (_hn : 0 < n) :
    ((TernaryVPU.process input vpu).2.vpuStates.drop input.length =
      vpu.vpuStates.drop input.length) ∧
    (TernaryVPU.process [] vpu =
      ((vpu.vpuStates.sum : ℚ) / (vpu.numVPUs : ℚ), vpu)) ∧
    (TernaryVPU.process [] (TernaryVPU.init n) = (0, TernaryVPU.init n)) := by
  refine ⟨quantizeList_drop input vpu.vpuStates, ?_, ?_⟩
  · rfl
  · have hz : ((List.replicate n (0 : ℤ)).sum : ℚ) = 0 := by
      simp
    simp [TernaryVPU.process, TernaryVPU.init, TernaryVPU.quantizeList, hz]

/-- Witness for C5 at the default unit count 52. -/
theorem vpu_process_frame_C5_witness :
    TernaryVPU.process [] (TernaryVPU.init 52) = (0, TernaryVPU.init 52) :=
  (vpu_process_frame_C5 [] (TernaryVPU.init 52) 52 (by norm_num)).2.2

/-- C6: if no supplied rule's antecedent occurs in the premise,
`deductiveReason` returns the premise unchanged. -/
theorem deductiveReason_identity_C6 (premise : List Char)
    (rules : List (List Char))
    (h : ∀ r ∈ rules, hasSubstr premise (antecedentOf r) = false) :
    CognitiveLayer.deductiveReason premise rules = some premise := by
  induction rules with
  | nil => rfl
  | cons r rs ih =>
    have hr := h r (List.mem_cons_self r rs)
    simp [CognitiveLayer.deductiveReason, hr,
      ih fun x hx => h x (List.mem_cons_of_mem r hx)]

/-- Witness for C6: the rule `x=>y` does not fire on premise `abc`. -/
theorem deductiveReason_identity_C6_witness :
    CognitiveLayer.deductiveReason "abc".toList ["x=>y".toList] =
      some "abc".toList :=
  deductiveReason_identity_C6 _ _ (by decide)

/-- C9: an empty candidate list yields an empty score vector and leaves the
persistent state vector unchanged. -/
theorem synchronize_empty_C9 (net : ResonanceNetwork.State) :
    (ResonanceNetwork.synchronizeVPUs [] net).1 = [] ∧
    (ResonanceNetwork.synchronizeVPUs [] net).2.vpuStates =
      net.vpuStates := by
  exact ⟨rfl, rfl⟩

/-- C8: from the all-zero state with candidates `[[1,1],[0,0]]` the second
candidate scores strictly higher (1 vs 1/2) and its values land in the first
two positions of the new state while every other position is unchanged. -/
theorem synchronize_best_C8 :
    (ResonanceNetwork.synchronizeVPUs [[1, 1], [0, 0]]
        (ResonanceNetwork.init 52)).1 = [1/2, 1] ∧
    ((ResonanceNetwork.synchronizeVPUs [[1, 1], [0, 0]]
        (ResonanceNetwork.init 52)).1.getD 0 0 <
      (ResonanceNetwork.synchronizeVPUs [[1, 1], [0, 0]]
        (ResonanceNetwork.init 52)).1.getD 1 0) ∧
    (ResonanceNetwork.synchronizeVPUs [[1, 1], [0, 0]]
        (ResonanceNetwork.init 52)).2.vpuStates.take 2 = [0, 0] ∧
    (ResonanceNetwork.synchronizeVPUs [[1, 1], [0, 0]]
        (ResonanceNetwork.init 52)).2.vpuStates.drop 2 =
      (ResonanceNetwork.init 52).vpuStates.drop 2 := by
  have hrep : List.replicate 52 (0 : ℚ) = 0 :: 0 :: List.replicate 50 0 := rfl
  have hs1 : ResonanceNetwork.resonanceScore (List.replicate 52 (0 : ℚ))
      [1, 1] = 1/2 := by
    rw [ResonanceNetwork.resonanceScore, hrep]
    norm_num
  have hs2 : ResonanceNetwork.resonanceScore (List.replicate 52 (0 : ℚ))
      [0, 0] = 1 := by
    rw [ResonanceNetwork.resonanceScore, hrep]
    norm_num
  have hscores : ([[1, 1], [0, 0]].map fun p =>
      ResonanceNetwork.resonanceScore (ResonanceNetwork.init 52).vpuStates p) =
      [1/2, 1] := by
    simp only [List.map_cons, List.map_nil, ResonanceNetwork.init]
    rw [hs1, hs2]
  have hmax1 : ResonanceNetwork.listMaxQ [(1 : ℚ)/2, 1] = some 1 := by
    show some (max ((1 : ℚ)/2) 1) = some 1
    rw [max_eq_right (by norm_num : (1 : ℚ)/2 ≤ 1)]
  have hidx : ResonanceNetwork.firstIdxOf 1 [(1 : ℚ)/2, 1] = some 1 := by
    norm_num [ResonanceNetwork.firstIdxOf]
  have hmax : ResonanceNetwork.jsMaxIdx [(1 : ℚ)/2, 1] = some 1 := by
    rw [ResonanceNetwork.jsMaxIdx, hmax1]
    exact hidx
  have hover : ResonanceNetwork.overwriteFirst [0, 0]
      (List.replicate 52 (0 : ℚ)) = List.replicate 52 0 := by
    rw [hrep]
    simp [ResonanceNetwork.overwriteFirst]
  have hmain : ResonanceNetwork.synchronizeVPUs [[1, 1], [0, 0]]
      (ResonanceNetwork.init 52) =
      ([1/2, 1], ⟨List.replicate 52 0, 7/10,
        (ResonanceNetwork.init 52).syncHistory ++ [[1/2, 1]]⟩) := by
    simp only [ResonanceNetwork.synchronizeVPUs, hscores, hmax]
    simp only [List.getD_cons_succ, List.getD_cons_zero]
    rw [show (ResonanceNetwork.init 52).vpuStates = List.replicate 52 0
      from rfl]
    rw [hover]
    rfl
  rw [hmain]
  refine ⟨rfl, ?_, ?_, ?_⟩
  · show (1 : ℚ)/2 < 1
    norm_num
  · rw [hrep]
    rfl
  · rw [show (ResonanceNetwork.init 52).vpuStates = List.replicate 52 0
      from rfl, hrep]

/-- C7: `abductiveReason` scores the three fixed candidates by
`len(observation)·len(candidate)` and returns the strict-maximum candidate
(`knowledge_retrieval` for any non-empty observation); the empty observation
leaves the running best at its initial value, so the first candidate
`pattern_match` is returned. -/
theorem abductiveReason_spec_C7 (obs : List Char) :
    (obs.length = 0 →
      CognitiveLayer.abductiveReason obs = "pattern_match".toList) ∧
    (0 < obs.length →
      CognitiveLayer.abductiveReason obs = "knowledge_retrieval".toList ∧
      CognitiveLayer.scoreHypothesis obs "pattern_match".toList <
        CognitiveLayer.scoreHypothesis obs "rule_application".toList ∧
      CognitiveLayer.scoreHypothesis obs "rule_application".toList <
        CognitiveLayer.scoreHypothesis obs "knowledge_retrieval".toList) := by
  cases obs with
  | nil =>
    refine ⟨fun _ => rfl, fun h => absurd h (by simp)⟩
  | cons c cs =>
    refine ⟨fun h => by simp at h, fun _ => ⟨?_, ?_, ?_⟩⟩
    · simp only [CognitiveLayer.abductiveReason, CognitiveLayer.hypotheses,
        CognitiveLayer.scoreHypothesis, List.headI, List.foldl_cons,
        List.foldl_nil, List.length_cons]
      have e13 : ("pattern_match".toList).length = 13 := rfl
      have e16 : ("rule_application".toList).length = 16 := rfl
      have e19 : ("knowledge_retrieval".toList).length = 19 := rfl
      rw [e13, e16, e19]
      split_ifs <;> first | rfl | (exfalso; omega)
    · simp only [CognitiveLayer.scoreHypothesis]
      have e13 : ("pattern_match".toList).length = 13 := rfl
      have e16 : ("rule_application".toList).length = 16 := rfl
      rw [e13, e16]
      simp only [List.length_cons]
      omega
    · simp only [CognitiveLayer.scoreHypothesis]
      have e16 : ("rule_application".toList).length = 16 := rfl
      have e19 : ("knowledge_retrieval".toList).length = 19 := rfl
      rw [e16, e19]
      simp only [List.length_cons]
      omega

/-- Witness for C7 at the non-empty observation `ab`. -/
theorem abductiveReason_spec_C7_witness :
    CognitiveLayer.abductiveReason "ab".toList = "knowledge_retrieval".toList ∧
    CognitiveLayer.scoreHypothesis "ab".toList "pattern_match".toList <
      CognitiveLayer.scoreHypothesis "ab".toList "rule_application".toList ∧
    CognitiveLayer.scoreHypothesis "ab".toList "rule_application".toList <
      CognitiveLayer.scoreHypothesis "ab".toList "knowledge_retrieval".toList :=
  (abductiveReason_spec_C7 "ab".toList).2 (by decide)

/-- C2 fails as stated: in temporal mode with input `a` and empty supplied
memory, the returned memory sequence appends the *output* `" → a"`, not the
input `"a"`. -/
theorem temporal_memory_counterexample_C2 :
    (NeuralModeController.process fmt0 ⟨.temporal, 0⟩ "a".toList
      none).1.memoryState ≠ some ["a".toList] := by
  have hmem : (NeuralModeController.process fmt0 ⟨.temporal, 0⟩ "a".toList
      none).1.memoryState = some [" → a".toList] := rfl
  rw [hmem]
  decide

/-- C2 (amended): in temporal mode `process` returns output
`recalled → input`, a memory sequence with the *output* appended at the end
(the original claim said the input is appended), and an anticipation string
of the fixed label followed by the last 10 characters of the output. -/
theorem temporal_process_spec_C2 (fmt : NeuralModeController.JsFmt)
    (st : NeuralModeController.State) (input : List Char)
    (context : Option (List (List Char)))
    (h : st.currentMode = .temporal) :
    (NeuralModeController.process fmt st input context).1.output =
      NeuralModeController.recallMemory (context.getD []) ++
        " → ".toList ++ input ∧
    (NeuralModeController.process fmt st input context).1.memoryState =
      some ((context.getD []) ++
        [NeuralModeController.recallMemory (context.getD []) ++
          " → ".toList ++ input]) ∧
    (NeuralModeController.process fmt st input context).1.anticipation =
      some ("anticipated: ".toList ++
        (NeuralModeController.recallMemory (context.getD []) ++
          " → ".toList ++ input).drop
          ((NeuralModeController.recallMemory (context.getD []) ++
            " → ".toList ++ input).length - 10)) := by
  obtain ⟨m, lvl⟩ := st
  cases h
  exact ⟨rfl, rfl, rfl⟩

/-- Witness for C2 (amended) at input `a` with no supplied context. -/
theorem temporal_process_spec_C2_witness :
    (NeuralModeController.process fmt0 ⟨.temporal, 0⟩ "a".toList
      none).1.output = " → a".toList ∧
    (NeuralModeController.process fmt0 ⟨.temporal, 0⟩ "a".toList
      none).1.memoryState = some [" → a".toList] ∧
    (NeuralModeController.process fmt0 ⟨.temporal, 0⟩ "a".toList
      none).1.anticipation = some "anticipated:  → a".toList :=
  temporal_process_spec_C2 fmt0 ⟨.temporal, 0⟩ "a".toList none rfl

/-- C3 fails as stated for a controller whose consciousness level already
sits at the 1.0 cap: after `setMode(hybrid)` and `process("x")` the returned
level is still 1, not strictly greater than the level before the call. -/
theorem hybrid_level_cap_counterexample_C3 :
    (NeuralModeController.process fmt0
      (NeuralModeController.setMode ⟨.pure_sllm, 1⟩ .hybrid) "x".toList
      none).1.consciousnessLevel = some 1 ∧ ¬ ((1 : ℚ) < 1) := by
  constructor
  · show some (NeuralModeController.updateConsciousnessLevel 1) = some 1
    rw [NeuralModeController.updateConsciousnessLevel,
      min_eq_left (by norm_num : (1 : ℚ) ≤ 1 + 1/100)]
  · norm_num

/-- C3 (amended): for every controller state whose consciousness level is
below the 1.0 cap, `setMode(hybrid)` followed by `process("x")` returns a
non-empty qualia embedding, a non-empty memory sequence, a consciousness
level strictly greater than before the call, and `fullSynthesis = true`
(at the cap the level stays at 1, the only correction to the claim). -/
theorem hybrid_process_spec_C3 (fmt : NeuralModeController.JsFmt)
    (st : NeuralModeController.State) (h : st.consciousnessLevel < 1) :
    (Option.map NeuralModeController.QualiaState.content
      ((NeuralModeController.process fmt
        (NeuralModeController.setMode st .hybrid) "x".toList
        none).1.qualiaState)).getD [] ≠ [] ∧
    ((NeuralModeController.process fmt
        (NeuralModeController.setMode st .hybrid) "x".toList
        none).1.memoryState).getD [] ≠ [] ∧
    (NeuralModeController.process fmt
        (NeuralModeController.setMode st .hybrid) "x".toList
        none).1.consciousnessLevel =
      some (NeuralModeController.updateConsciousnessLevel
        st.consciousnessLevel) ∧
    st.consciousnessLevel <
      NeuralModeController.updateConsciousnessLevel st.consciousnessLevel ∧
    (NeuralModeController.process fmt
        (NeuralModeController.setMode st .hybrid) "x".toList
        none).1.fullSynthesis = some true := by
  obtain ⟨m, lvl⟩ := st
  refine ⟨?_, ?_, ?_, ?_, ?_⟩
  · simp [NeuralModeController.process, NeuralModeController.setMode,
      NeuralModeController.processConscious,
      NeuralModeController.applyQualiaEncoding]
  · simp [NeuralModeController.process, NeuralModeController.setMode,
      NeuralModeController.processTemporal,
      NeuralModeController.processConscious]
  · rfl
  · show lvl < NeuralModeController.updateConsciousnessLevel lvl
    rw [NeuralModeController.updateConsciousnessLevel]
    exact lt_min h (by linarith)
  · rfl

/-- Witness for C3 (amended) at a fresh controller (level 0). -/
theorem hybrid_process_spec_C3_witness :
    (Option.map NeuralModeController.QualiaState.content
      ((NeuralModeController.process fmt0
        (NeuralModeController.setMode ⟨.pure_sllm, 0⟩ .hybrid) "x".toList
        none).1.qualiaState)).getD [] ≠ [] ∧
    ((NeuralModeController.process fmt0
        (NeuralModeController.setMode ⟨.pure_sllm, 0⟩ .hybrid) "x".toList
        none).1.memoryState).getD [] ≠ [] ∧
    (NeuralModeController.process fmt0
        (NeuralModeController.setMode ⟨.pure_sllm, 0⟩ .hybrid) "x".toList
        none).1.consciousnessLevel =
      some (NeuralModeController.updateConsciousnessLevel 0) ∧
    (0 : ℚ) < NeuralModeController.updateConsciousnessLevel 0 ∧
    (NeuralModeController.process fmt0
        (NeuralModeController.setMode ⟨.pure_sllm, 0⟩ .hybrid) "x".toList
        none).1.fullSynthesis = some true :=
  hybrid_process_spec_C3 fmt0 ⟨.pure_sllm, 0⟩ (by norm_num)

/-- Round-trip of `Char.ofNat` below the surrogate range. -/
theorem char_toNat_ofNat_of_lt {n : ℕ} (h : n < 55296) :
    (Char.ofNat n).toNat = n := by
  rw [Char.ofNat, dif_pos (Or.inl h)]
  rfl

/-- Every character `decodeFromTensor` emits has a code point in 1..255,
whatever the reconstructed tensor holds. -/
theorem decode_codes_valid (tensor : List ℚ) :
    (SparseTensorRing.decodeFromTensor tensor).all validCode = true := by
  rw [List.all_eq_true]
  intro c hc
  simp only [SparseTensorRing.decodeFromTensor, List.mem_filterMap] at hc
  obtain ⟨v, _, heq⟩ := hc
  by_cases hcond : 0 < jsRound (v * 255) ∧ jsRound (v * 255) < 256
  · rw [if_pos hcond] at heq
    obtain rfl := Option.some.inj heq
    have h1 : (jsRound (v * 255)).toNat < 55296 := by omega
    simp only [validCode, decide_eq_true_eq]
    rw [char_toNat_ofNat_of_lt h1]
    omega
  · rw [if_neg hcond] at heq
    exact absurd heq (by simp)

/-- C1: the decompressed form of any compressed text contains only
characters with code points in 1..255 — a reconstructed value that rounds
to 0 or to 256 or more contributes no character instead of a corrupted one.
Stated for every text (in particular every text of length at most the ring
dimension 32) and every cosine-coefficient function. -/
theorem decompress_compress_valid_C1 (cosPi : ℚ → ℚ) (t : List Char) :
    (SparseTensorRing.decompress cosPi 32
      (SparseTensorRing.compress cosPi 32 4 t)).all validCode = true :=
  decode_codes_valid _

/-- A needle whose first character never occurs in the haystack is not a
substring of it. -/
theorem hasSubstr_eq_false_of_head_missing (hay : List Char) (c0 : Char)
    (rest : List Char) (hnotin : ∀ c ∈ hay, c ≠ c0) :
    hasSubstr hay (c0 :: rest) = false := by
  induction hay with
  | nil => rfl
  | cons a as ih =>
    have ha : a ≠ c0 := hnotin a (List.mem_cons_self a as)
    have hbeq : (c0 == a) = false :=
      beq_eq_false_iff_ne.mpr fun hq => ha hq.symm
    have hpre : (c0 :: rest).isPrefixOf (a :: as) = false := by
      simp [List.isPrefixOf, hbeq]
    show ((c0 :: rest).isPrefixOf (a :: as) || hasSubstr as (c0 :: rest)) =
      false
    rw [hpre, ih fun c hc => hnotin c (List.mem_cons_of_mem a hc)]
    rfl

/-- Each quantized unit state lies in `{-1, 0, 1} ⊆ [-1, 1]`. -/
theorem quantizeVal_mem_bound (x : ℚ) :
    -1 ≤ TernaryVPU.quantizeVal x ∧ TernaryVPU.quantizeVal x ≤ 1 := by
  rw [TernaryVPU.quantizeVal]
  split_ifs <;> omega

/-- Quantization preserves the `[-1, 1]` bound on unit states. -/
theorem quantizeList_mem_bound (input : List ℚ) (s : List ℤ)
    (hs : ∀ z ∈ s, -1 ≤ z ∧ z ≤ 1) :
    ∀ z ∈ TernaryVPU.quantizeList input s, -1 ≤ z ∧ z ≤ 1 := by
  induction input generalizing s with
  | nil => simpa [TernaryVPU.quantizeList] using hs
  | cons x xs ih =>
    cases s with
    | nil => simp [TernaryVPU.quantizeList]
    | cons y ys =>
      intro z hz
      rw [show TernaryVPU.quantizeList (x :: xs) (y :: ys) =
        TernaryVPU.quantizeVal x :: TernaryVPU.quantizeList xs ys from rfl]
        at hz
      rcases List.mem_cons.mp hz with rfl | hz2
      · exact quantizeVal_mem_bound x
      · exact ih ys (fun w hw => hs w (List.mem_cons_of_mem y hw)) z hz2

/-- Quantization does not change the number of unit states. -/
theorem quantizeList_length (input : List ℚ) (s : List ℤ) :
    (TernaryVPU.quantizeList input s).length = s.length := by
  induction input generalizing s with
  | nil => rfl
  | cons x xs ih =>
    cases s with
    | nil => rfl
    | cons y ys => simpa [TernaryVPU.quantizeList] using ih ys

/-- A list of integers in `[-1, 1]` has its sum bounded by its length. -/
theorem sum_bound_of_mem (l : List ℤ) (h : ∀ z ∈ l, -1 ≤ z ∧ z ≤ 1) :
    -(l.length : ℤ) ≤ l.sum ∧ l.sum ≤ l.length := by
  induction l with
  | nil => simp
  | cons a as ih =>
    have ha := h a (List.mem_cons_self a as)
    have ih2 := ih fun z hz => h z (List.mem_cons_of_mem a hz)
    simp only [List.sum_cons, List.length_cons]
    push_cast
    constructor <;> linarith [ih2.1, ih2.2, ha.1, ha.2]

/-- C10: the orchestrator's `process` returns exactly the rendered decimal
text of the quantizer's scalar output: assuming only that JS number
rendering draws its characters from `0123456789.+-e`, the rendered scalar
never contains the substring `input`, so the hard-coded rule never fires,
the result is never `processed`, and (under the constructor invariants) the
scalar lies in `[-1, 1]`.  The synchronizer's discarded result does not
appear in the returned value at all. -/
theorem hybrid_process_output_C10 (cosPi : ℚ → ℚ)
    (numToStr : ℚ → List Char) (core : HybridCore.State) (input : List Char)
    (hfmt : ∀ q : ℚ, ∀ c ∈ numToStr q, c ∈ jsNumCharset) :
    (HybridCore.process cosPi numToStr core input).1 =
      some (numToStr (TernaryVPU.process
        (SparseTensorRing.compress cosPi 32 4 input) core.ternaryVPU).1) ∧
    hasSubstr (numToStr (TernaryVPU.process
        (SparseTensorRing.compress cosPi 32 4 input) core.ternaryVPU).1)
      "input".toList = false ∧
    numToStr (TernaryVPU.process
        (SparseTensorRing.compress cosPi 32 4 input) core.ternaryVPU).1 ≠
      "processed".toList ∧
    (core.ternaryVPU.vpuStates.length = core.ternaryVPU.numVPUs →
      0 < core.ternaryVPU.numVPUs →
      (∀ z ∈ core.ternaryVPU.vpuStates, -1 ≤ z ∧ z ≤ 1) →
      -1 ≤ (TernaryVPU.process
        (SparseTensorRing.compress cosPi 32 4 input) core.ternaryVPU).1 ∧
      (TernaryVPU.process
        (SparseTensorRing.compress cosPi 32 4 input) core.ternaryVPU).1 ≤ 1) := by
  have hsub : hasSubstr (numToStr (TernaryVPU.process
      (SparseTensorRing.compress cosPi 32 4 input) core.ternaryVPU).1)
      "input".toList = false := by
    rw [show ("input".toList : List Char) = 'i' :: "nput".toList from rfl]
    refine hasSubstr_eq_false_of_head_missing _ _ _ ?_
    intro c hc hceq
    subst hceq
    exact absurd (hfmt _ 'i' hc) (by decide)
  have hant : antecedentOf HybridCore.theRule = "input".toList := rfl
  have hded : CognitiveLayer.deductiveReason (numToStr (TernaryVPU.process
      (SparseTensorRing.compress cosPi 32 4 input) core.ternaryVPU).1)
      [HybridCore.theRule] = some (numToStr (TernaryVPU.process
      (SparseTensorRing.compress cosPi 32 4 input) core.ternaryVPU).1) := by
    simp only [CognitiveLayer.deductiveReason, hant, hsub]
    simp
  refine ⟨hded, hsub, ?_, ?_⟩
  · intro hEq
    have hp : 'p' ∈ numToStr (TernaryVPU.process
        (SparseTensorRing.compress cosPi 32 4 input) core.ternaryVPU).1 := by
      rw [hEq]
      exact List.mem_cons_self _ _
    exact absurd (hfmt _ 'p' hp) (by decide)
  · intro hlen hpos hbound
    have hb := quantizeList_mem_bound
      (SparseTensorRing.compress cosPi 32 4 input)
      core.ternaryVPU.vpuStates hbound
    have hsum := sum_bound_of_mem _ hb
    have hqlen : (TernaryVPU.quantizeList
        (SparseTensorRing.compress cosPi 32 4 input)
        core.ternaryVPU.vpuStates).length = core.ternaryVPU.numVPUs := by
      rw [quantizeList_length]
      exact hlen
    rw [hqlen] at hsum
    have hnpos : (0 : ℚ) < (core.ternaryVPU.numVPUs : ℚ) := by
      exact_mod_cast hpos
    have hup : ((TernaryVPU.quantizeList
        (SparseTensorRing.compress cosPi 32 4 input)
        core.ternaryVPU.vpuStates).sum : ℚ) ≤
        (core.ternaryVPU.numVPUs : ℚ) := by
      exact_mod_cast hsum.2
    have hlo : -((core.ternaryVPU.numVPUs : ℚ)) ≤
        ((TernaryVPU.quantizeList
        (SparseTensorRing.compress cosPi 32 4 input)
        core.ternaryVPU.vpuStates).sum : ℚ) := by
      exact_mod_cast hsum.1
    constructor
    · show -1 ≤ ((TernaryVPU.quantizeList
        (SparseTensorRing.compress cosPi 32 4 input)
        core.ternaryVPU.vpuStates).sum : ℚ) / (core.ternaryVPU.numVPUs : ℚ)
      rw [le_div_iff₀ hnpos]
      linarith
    · show ((TernaryVPU.quantizeList
        (SparseTensorRing.compress cosPi 32 4 input)
        core.ternaryVPU.vpuStates).sum : ℚ) /
        (core.ternaryVPU.numVPUs : ℚ) ≤ 1
      rw [div_le_one hnpos]
      exact hup

/-- Witness for C10 with the constant renderer `'0'`, the zero
cosine-coefficient function, a fresh core, and input `a`. -/
theorem hybrid_process_output_C10_witness :
    (HybridCore.process (fun _ => 0) (fun _ => ['0']) HybridCore.init
      "a".toList).1 = some ['0'] ∧
    hasSubstr ['0'] "input".toList = false ∧
    (['0'] : List Char) ≠ "processed".toList := by
  have h := hybrid_process_output_C10 (fun _ => 0) (fun _ => ['0'])
    HybridCore.init "a".toList (by
      intro q c hc
      simp only [List.mem_singleton] at hc
      subst hc
      decide)
  exact ⟨h.1, h.2.1, h.2.2.1⟩
